import Mathlib

/-!
Shallow embedding of the file-drive API's hierarchy, lifecycle and
permission core:

* `checkPermission` — the authorization middleware
  (src/middleware/permissions.middleware.ts).
* `grantSpecificPermission`, `propagatePermissions`,
  `getAllNestedFoldersAndFiles`, `revokePermission` — the permission
  service (services/permission.service.ts).
* `createFolder`, `updateFolder`, `deleteFolder`,
  `addChildFolderToFolder`, `addFileToFolder` — the folder service
  (services/folder.service.ts).
* `updateFile`, `completeUpload` — the file service
  (services/file.service.ts).

MongoDB collections are embedded as lists of records; ObjectIds are
natural numbers (id-format validation, which always passes for a real
ObjectId, is dropped).  Store primitives are modelled by their documented
semantics: `findById` finds the first record with the id, `updateOne`
updates the first matching record, upserts insert when no record matches,
`$pull` removes all occurrences, `$addToSet` adds only when absent, and
`$graphLookup` computes the set of documents reachable by repeatedly
matching `connectToField` (`parentFolderId`) against already-found ids —
embedded below as a saturating iteration (`iterF`) whose fuel (the number
of folder records) is proved sufficient.  Blob-store calls and metadata
deletions are appended to an event log so that their relative order is
observable.
-/

namespace FileDrive

/-- Access levels supported by the system (permission.model.ts `ACCESS_LEVELS`). -/
inductive AccessLevel where
  | read
  | write
  | create
  | delete
  | owner
deriving DecidableEq, Repr

/-- Target type of a resource-scoped permission. -/
inductive TargetType where
  | file
  | folder
deriving DecidableEq, Repr

/-- Folder record (folder.model.ts). -/
structure Folder where
  id : Nat
  folderName : String
  userId : Nat
  businessId : Nat
  parentFolderId : Option Nat
  s3Key : String
  fileIds : List Nat
  folderIds : List Nat
deriving DecidableEq, Repr

/-- File record (file.model.ts). -/
structure FileDoc where
  id : Nat
  fileName : String
  userId : Nat
  businessId : Nat
  folderId : Option Nat
  fileSize : Int
  contentType : Option String
  s3Key : String
deriving DecidableEq, Repr

/-- Permission record (permission.model.ts). -/
structure Permission where
  id : Nat
  userId : Nat
  targetId : Option Nat
  targetType : Option TargetType
  accessLevel : List AccessLevel
  isGlobal : Bool
deriving DecidableEq, Repr

/-- Observable side effects: blob-store calls and metadata deletions. -/
inductive Event where
  | deletePrefixCall (key : String)
  | deleteObjectCall (key : String)
  | deleteFilesInFolderCall (folderId : Nat)
  | deleteFolderDocCall (id : Nat)
deriving DecidableEq, Repr

/-- The persistent state: the three collections, fresh-id counters for
records the services allocate, and the event log. -/
structure DB where
  folders : List Folder
  files : List FileDoc
  perms : List Permission
  nextFolderId : Nat
  nextPermId : Nat
  log : List Event
deriving DecidableEq, Repr

/-- Error taxonomy relevant to the claims (AppError codes / thrown errors). -/
inductive Err where
  | validation
  | notFound
  | conflict
deriving DecidableEq, Repr

/-- Mongo `findById` over the folder collection. -/
def findFolder (folders : List Folder) (id : Nat) : Option Folder :=
  folders.find? (fun f => f.id == id)

/-- Mongo `findById` over the file collection. -/
def findFile (files : List FileDoc) (id : Nat) : Option FileDoc :=
  files.find? (fun f => f.id == id)

/-- Mongo `updateOne`-style update: rewrite the first record matching `p`. -/
def updateFirst {α : Type} (p : α → Bool) (g : α → α) : List α → List α
  | [] => []
  | x :: xs => if p x then g x :: xs else x :: updateFirst p g xs

/-- Mongo `findByIdAndDelete`-style removal: drop the first record matching `p`. -/
def eraseFirst {α : Type} (p : α → Bool) : List α → List α
  | [] => []
  | x :: xs => if p x then xs else x :: eraseFirst p xs

/-- JS `String.prototype.trim`: strip leading and trailing whitespace,
modelled on the character list. -/
def jsTrim (s : String) : String :=
  (((s.toList.dropWhile Char.isWhitespace).reverse.dropWhile Char.isWhitespace).reverse).asString

/-- Character-level sanitization: the regex `[^a-zA-Z0-9._-]` replaced by `_`. -/
def sanitizeChar (c : Char) : Char :=
  if c.isAlphanum || c = '.' || c = '_' || c = '-' then c else '_'

/-- folder.service.ts `sanitizeFolderName`: replace unsafe characters, cap at 120. -/
def sanitizeFolderName (folderName : String) : String :=
  ((folderName.toList.map sanitizeChar).take 120).asString

/-- file.service.ts `sanitizeFilename`: replace unsafe characters, cap at 180. -/
def sanitizeFilename (originalName : String) : String :=
  ((originalName.toList.map sanitizeChar).take 180).asString

/-- folder.service.ts `folderPrefix`: `businessId/folders/<folderId>/`. -/
def folderKeyOf (businessId folderId : Nat) : String :=
  toString businessId ++ "/folders/" ++ toString folderId ++ "/"

/-- Outcome of the authorization middleware. -/
inductive Decision where
  | allow
  | notFound
  | forbidden
deriving DecidableEq, Repr

/-- Ownership lookup of `checkPermission`: fetch the resource, project its
`userId`; `none` when the resource does not exist (404 in the middleware). -/
def resolveOwner (db : DB) (resource : TargetType) (resourceId : Nat) : Option Nat :=
  match resource with
  | .folder => (findFolder db.folders resourceId).map (fun f => f.userId)
  | .file => (findFile db.files resourceId).map (fun f => f.userId)

/-- Tier 2 of `checkPermission`: `Permission.exists` with
`isGlobal: true` and `accessLevel` containing the action. -/
def hasGlobalB (perms : List Permission) (userId : Nat) (action : AccessLevel) : Bool :=
  perms.any (fun p => p.userId == userId && p.isGlobal && p.accessLevel.contains action)

/-- Tier 3 of `checkPermission`: `Permission.exists` with `isGlobal: false`,
exact `(targetType, targetId)` and `accessLevel` containing the action. -/
def hasSpecificB (perms : List Permission) (userId : Nat) (resource : TargetType)
    (resourceId : Nat) (action : AccessLevel) : Bool :=
  perms.any (fun p =>
    p.userId == userId && !p.isGlobal && p.targetType == some resource &&
      p.targetId == some resourceId && p.accessLevel.contains action)

/-- permissions.middleware.ts `checkPermission`: ownership, then global
grant, then resource-specific grant, else Forbidden; missing resource is
NotFound (a distinct failure). -/
def checkPermission (db : DB) (resource : TargetType) (resourceId userId : Nat)
    (action : AccessLevel) : Decision :=
  match resolveOwner db resource resourceId with
  | none => .notFound
  | some ownerId =>
    if ownerId = userId then .allow
    else if hasGlobalB db.perms userId action then .allow
    else if hasSpecificB db.perms userId resource resourceId action then .allow
    else .forbidden

/-- Does this folder's `parentFolderId` point into the set `s`? -/
def parentInB (s : Finset Nat) (f : Folder) : Bool :=
  match f.parentFolderId with
  | some p => decide (p ∈ s)
  | none => false

/-- One layer of `$graphLookup`: ids of folders whose parent is already found. -/
def childAdd (folders : List Folder) (s : Finset Nat) : Finset Nat :=
  ((folders.filter (fun f => parentInB s f)).map (fun f => f.id)).toFinset

/-- Inflationary step of the reachability iteration. -/
def stepF (folders : List Folder) (s : Finset Nat) : Finset Nat :=
  s ∪ childAdd folders s

/-- Iterated reachability step. -/
def iterF (folders : List Folder) : Nat → Finset Nat → Finset Nat
  | 0, s => s
  | k + 1, s => stepF folders (iterF folders k s)

/-- Ids visited by `$graphLookup` started at `rootId` (root included as seed);
`folders.length` iterations saturate (proved below). -/
def visitedOf (folders : List Folder) (rootId : Nat) : Finset Nat :=
  iterF folders folders.length {rootId}

/-- The `nestedFolders` output of the aggregation in
`getAllNestedFoldersAndFiles`: every folder whose parent chain reaches
`rootId`.  The initial `$match` stage means an absent root yields nothing. -/
def nestedFolderIdsOf (folders : List Folder) (rootId : Nat) : List Nat :=
  if (findFolder folders rootId).isSome then
    (folders.filter (fun f => parentInB (visitedOf folders rootId) f)).map (fun f => f.id)
  else []

/-- One entry of the list returned by `getAllNestedFoldersAndFiles`. -/
structure NestedItem where
  id : Nat
  type : TargetType
deriving DecidableEq, Repr

/-- permission.service.ts `getAllNestedFoldersAndFiles`: descendant folders
via `$graphLookup`, then all files whose `folderId` is the root or one of
those descendants. -/
def getAllNestedFoldersAndFiles (folders : List Folder) (files : List FileDoc)
    (folderId : Nat) : List NestedItem :=
  let nestedFolders := nestedFolderIdsOf folders folderId
  let allFolderIds := folderId :: nestedFolders
  let nestedFiles := (files.filter (fun fl =>
    match fl.folderId with
    | some d => allFolderIds.contains d
    | none => false)).map (fun fl => fl.id)
  nestedFolders.map (fun i => NestedItem.mk i .folder) ++
    nestedFiles.map (fun i => NestedItem.mk i .file)

/-- Upsert key used by both the direct grant and propagation:
`{ userId, targetId, targetType }`. -/
def permKeyB (userId targetId : Nat) (targetType : TargetType) (p : Permission) : Bool :=
  p.userId == userId && p.targetId == some targetId && p.targetType == some targetType

/-- One `bulkWrite` entry of `propagatePermissions`: `updateOne` with
`$set { accessLevel, isGlobal: false }` and `upsert: true`. -/
def applyPropUpsert (db : DB) (userId targetId : Nat) (targetType : TargetType)
    (accessLevels : List AccessLevel) : DB :=
  if db.perms.any (permKeyB userId targetId targetType) then
    { db with perms := (updateFirst (permKeyB userId targetId targetType)
        (fun p => { p with accessLevel := accessLevels, isGlobal := false }) db.perms) }
  else
    { db with
        perms := db.perms ++
          [⟨db.nextPermId, userId, some targetId, some targetType, accessLevels, false⟩],
        nextPermId := db.nextPermId + 1 }

/-- permission.service.ts `propagatePermissions`: enumerate the subtree once,
then bulk-upsert a record per descendant, in list order. -/
def propagatePermissions (db : DB) (userId folderId : Nat)
    (accessLevels : List AccessLevel) : DB :=
  let nestedItems := getAllNestedFoldersAndFiles db.folders db.files folderId
  nestedItems.foldl (fun acc item => applyPropUpsert acc userId item.id item.type accessLevels) db

/-- permission.service.ts `grantSpecificPermission`: upsert the direct grant
(update path rewrites `accessLevel` only; insert path creates a non-global
record), then propagate when the target is a folder. -/
def grantSpecificPermission (db : DB) (userId targetId : Nat) (targetType : TargetType)
    (accessLevels : List AccessLevel) : DB :=
  let db1 :=
    if db.perms.any (permKeyB userId targetId targetType) then
      { db with perms := (updateFirst (permKeyB userId targetId targetType)
          (fun p => { p with accessLevel := accessLevels }) db.perms) }
    else
      { db with
          perms := db.perms ++
            [⟨db.nextPermId, userId, some targetId, some targetType, accessLevels, false⟩],
          nextPermId := db.nextPermId + 1 }
  match targetType with
  | .folder => propagatePermissions db1 userId targetId accessLevels
  | .file => db1

/-- permission.service.ts `revokePermission`: `findByIdAndDelete` on the
permission collection. -/
def revokePermission (db : DB) (permissionId : Nat) : DB :=
  { db with perms := eraseFirst (fun p => p.id == permissionId) db.perms }

/-- folder.service.ts `addChildFolderToFolder`: error when the parent is
missing; return without writing when the child id is already linked;
otherwise append the child id and save. -/
def addChildFolderToFolder (db : DB) (parentFolderId childFolderId : Nat) : Except Err DB :=
  match findFolder db.folders parentFolderId with
  | none => .error .notFound
  | some parentFolderDoc =>
    if parentFolderDoc.folderIds.contains childFolderId then .ok db
    else .ok { db with folders := (updateFirst (fun f => f.id == parentFolderId)
        (fun f => { f with folderIds := f.folderIds ++ [childFolderId] }) db.folders) }

/-- folder.service.ts `addFileToFolder`: `findOneAndUpdate` with
`$addToSet { fileIds: fileId }`; error when the folder is missing. -/
def addFileToFolder (db : DB) (fileId folderId : Nat) : Except Err DB :=
  if (findFolder db.folders folderId).isSome then
    .ok { db with folders := (updateFirst (fun f => f.id == folderId)
        (fun f => { f with fileIds :=
          if f.fileIds.contains fileId then f.fileIds else f.fileIds ++ [fileId] }) db.folders) }
  else .error .notFound

/-- folder.service.ts `createFolder`.  Order is the source's: falsy-name
check, duplicate-sibling check, save of the new folder document (the
schema's nonempty-name validator runs here), and only then — when a parent
was given — `addChildFolderToFolder`, whose missing-parent error therefore
fires after the new record was persisted. -/
def createFolder (db : DB) (folderName : String) (userId businessId : Nat)
    (parentFolderId : Option Nat) : Except Err Nat × DB :=
  if folderName = "" then (.error .validation, db)
  else
    let normalizedName := sanitizeFolderName (jsTrim folderName)
    if db.folders.any (fun f =>
        f.businessId == businessId && f.parentFolderId == parentFolderId &&
          f.folderName == normalizedName) then
      (.error .conflict, db)
    else if jsTrim normalizedName = "" then (.error .validation, db)
    else
      let newFolderId := db.nextFolderId
      let folderDoc : Folder :=
        ⟨newFolderId, normalizedName, userId, businessId, parentFolderId,
          folderKeyOf businessId newFolderId, [], []⟩
      let db1 := { db with folders := db.folders ++ [folderDoc],
                           nextFolderId := db.nextFolderId + 1 }
      match parentFolderId with
      | some pid =>
        match addChildFolderToFolder db1 pid newFolderId with
        | .error e => (.error e, db1)
        | .ok db2 => (.ok newFolderId, db2)
      | none => (.ok newFolderId, db1)

/-- Fields a folder update payload may carry (`Partial<FolderSchemaType>`);
`none` means the field is absent from the payload. -/
structure FolderUpdate where
  folderName : Option String := none
  userId : Option Nat := none
  businessId : Option Nat := none
  parentFolderId : Option (Option Nat) := none
  s3Key : Option String := none
  fileIds : Option (List Nat) := none
  folderIds : Option (List Nat) := none
deriving DecidableEq, Repr

/-- folder.service.ts `updateFolder`: re-sanitize a (truthy) supplied name,
delete `s3Key` from the update, then `findByIdAndUpdate` with the rest. -/
def updateFolder (db : DB) (id : Nat) (folderData : FolderUpdate) : DB :=
  let newName := match folderData.folderName with
    | some n => if n = "" then some n else some (sanitizeFolderName (jsTrim n))
    | none => none
  { db with folders := updateFirst (fun f => f.id == id) (fun f =>
      { f with
          folderName := newName.getD f.folderName,
          userId := folderData.userId.getD f.userId,
          businessId := folderData.businessId.getD f.businessId,
          parentFolderId := folderData.parentFolderId.getD f.parentFolderId,
          fileIds := folderData.fileIds.getD f.fileIds,
          folderIds := folderData.folderIds.getD f.folderIds }) db.folders }

/-- Fields a file update payload may carry (`Partial<FileSchemaType>`). -/
structure FileUpdate where
  fileName : Option String := none
  userId : Option Nat := none
  businessId : Option Nat := none
  folderId : Option (Option Nat) := none
  fileSize : Option Int := none
  contentType : Option (Option String) := none
  s3Key : Option String := none
deriving DecidableEq, Repr

/-- file.service.ts `updateFile`: destructure `s3Key` out of the payload,
then `findByIdAndUpdate` with the remaining fields (no sanitization here). -/
def updateFile (db : DB) (id : Nat) (fileData : FileUpdate) : DB :=
  { db with files := updateFirst (fun fl => fl.id == id) (fun fl =>
      { fl with
          fileName := fileData.fileName.getD fl.fileName,
          userId := fileData.userId.getD fl.userId,
          businessId := fileData.businessId.getD fl.businessId,
          folderId := fileData.folderId.getD fl.folderId,
          fileSize := fileData.fileSize.getD fl.fileSize,
          contentType := fileData.contentType.getD fl.contentType }) db.files }

/-- file.service.ts `completeUpload`: persist the File record under the
pre-allocated id (a duplicate `_id` makes the save fail, modelled as a
conflict), then link it into the folder's `fileIds` via `addFileToFolder`. -/
def completeUpload (db : DB) (fileId userId businessId : Nat) (folderId : Option Nat)
    (fileName : String) (fileSize : Int) (contentType : Option String)
    (s3Key : String) : Except Err Nat × DB :=
  if s3Key = "" then (.error .validation, db)
  else if (findFile db.files fileId).isSome then (.error .conflict, db)
  else
    let fileDoc : FileDoc :=
      ⟨fileId, sanitizeFilename (jsTrim fileName), userId, businessId, folderId,
        fileSize, contentType, s3Key⟩
    let db1 := { db with files := db.files ++ [fileDoc] }
    match folderId with
    | some fid =>
      match addFileToFolder db1 fileId fid with
      | .error e => (.error e, db1)
      | .ok db2 => (.ok fileId, db2)
    | none => (.ok fileId, db1)

/-- Iterative work-stack walk of `deleteFolder` (the `while` loop).  The
stack's head is the next id to pop; pushing children c1..ck makes ck the
next pop, hence the `reverse`.  The fuel argument only bounds iterations —
`subtreeFuel` below always exceeds the walk's true iteration count, since
every pushed id comes from a still-live folder's `folderIds` and each
folder is deleted when first found. -/
def deleteSubtreeLoop (fuel : Nat) (db : DB) (stack : List Nat) : DB :=
  match fuel, stack with
  | _, [] => db
  | 0, _ => db
  | fuel + 1, childFolderId :: rest =>
    match findFolder db.folders childFolderId with
    | none => deleteSubtreeLoop fuel db rest
    | some childFolder =>
      let db1 := { db with log := db.log ++ [Event.deletePrefixCall childFolder.s3Key] }
      let db2 := { db1 with
          files := db1.files.filter (fun fl => !(fl.folderId == some childFolderId)),
          log := db1.log ++ [Event.deleteFilesInFolderCall childFolderId] }
      let db3 := { db2 with
          folders := eraseFirst (fun f => f.id == childFolderId) db2.folders,
          log := db2.log ++ [Event.deleteFolderDocCall childFolderId] }
      deleteSubtreeLoop fuel db3 (childFolder.folderIds.reverse ++ rest)

/-- Upper bound on the iterations of `deleteSubtreeLoop`: the initial stack
plus one pop per already-stacked id plus, per folder record, its possible
deletion and the children it can push. -/
def subtreeFuel (db : DB) (stack : List Nat) : Nat :=
  stack.length + (db.folders.map (fun f => f.folderIds.length + 1)).sum + 1

/-- folder.service.ts `deleteFolder`: fetch the root (NotFound when absent);
blob prefix-delete, then file metadata delete for the root; walk the
subtree iteratively (missing children silently skipped); `$pull` the root
id from its parent's `folderIds`; finally delete the root's own record. -/
def deleteFolder (db : DB) (id : Nat) : Except Err DB :=
  match findFolder db.folders id with
  | none => .error .notFound
  | some rootFolder =>
    let db1 := { db with log := db.log ++ [Event.deletePrefixCall rootFolder.s3Key] }
    let db2 := { db1 with
        files := db1.files.filter (fun fl => !(fl.folderId == some id)),
        log := db1.log ++ [Event.deleteFilesInFolderCall id] }
    let stack0 := rootFolder.folderIds.reverse
    let db3 := deleteSubtreeLoop (subtreeFuel db2 stack0) db2 stack0
    let db4 := match rootFolder.parentFolderId with
      | some pid => { db3 with folders := (updateFirst (fun f => f.id == pid)
          (fun f => { f with folderIds := f.folderIds.filter (fun c => !(c == id)) }) db3.folders) }
      | none => db3
    .ok { db4 with
        folders := eraseFirst (fun f => f.id == id) db4.folders,
        log := db4.log ++ [Event.deleteFolderDocCall id] }

/-- Strict reachability along `parentFolderId` links: `Descendant folders
root d` holds when `d` is the id of a folder whose parent chain reaches
`root`.  This is the claim-level notion of "folder reachable from F by
following parentFolderId links transitively". -/
inductive Descendant (folders : List Folder) (root : Nat) : Nat → Prop where
  | base (f : Folder) : f ∈ folders → f.parentFolderId = some root → Descendant folders root f.id
  | step (d : Nat) (f : Folder) : Descendant folders root d → f ∈ folders →
      f.parentFolderId = some d → Descendant folders root f.id

/-- Claim-level notion of a file inside `root`'s subtree: some file record
with this id sits directly in `root` or in a transitive descendant. -/
def FileInSubtree (folders : List Folder) (files : List FileDoc) (root fid : Nat) : Prop :=
  ∃ fl ∈ files, fl.id = fid ∧
    (fl.folderId = some root ∨ ∃ d, Descendant folders root d ∧ fl.folderId = some d)

/-- A permission record whose scope lies outside `root`'s subtree (global
records and records without a resource scope count as outside: propagation
never touches them either). -/
def OutsideSubtree (folders : List Folder) (files : List FileDoc) (root : Nat)
    (p : Permission) : Prop :=
  match p.targetId, p.targetType with
  | some d, some .folder => ¬ Descendant folders root d
  | some d, some .file => ¬ FileInSubtree folders files root d
  | _, _ => True

/-- Well-formedness of the permission collection: record ids are pairwise
distinct (Mongo's `_id` uniqueness) and below the fresh-id counter. -/
def PermIdInv (db : DB) : Prop :=
  (db.perms.map (fun p => p.id)).Nodup ∧ ∀ p ∈ db.perms, p.id < db.nextPermId

/-- The finite set of folder-record ids. -/
def allIds (folders : List Folder) : Finset Nat :=
  (folders.map (fun f => f.id)).toFinset

/-- The reachability iteration has stabilized after `k` steps. -/
def SatAt (folders : List Folder) (s : Finset Nat) (k : Nat) : Prop :=
  stepF folders (iterF folders k s) = iterF folders k s

/-- Whether a `deleteFolder` call succeeded. -/
def isOkB : Except Err DB → Bool
  | .ok _ => true
  | .error _ => false

/-- The error carried by a failed call, if any. -/
def errOf {α : Type} : Except Err α → Option Err
  | .ok _ => none
  | .error e => some e

/-- Decidability of the permission-id invariant. -/
instance (db : DB) : Decidable (PermIdInv db) := by
  unfold PermIdInv
  infer_instance

/-- Final state of a successful `deleteFolder` call (the argument itself
when the call failed, which leaves the store untouched anyway). -/
def outDB (db : DB) : Except Err DB → DB
  | .ok d => d
  | .error _ => db

/-- Concrete store for the recursive-delete scenario of C5: a parent P(0),
the tree root(1) → A(2) → B(3), one file (10) in B, and a stale child id 77
in A's `folderIds` with no record, exercising the silent skip. -/
def dbC5 : DB :=
  ⟨[⟨0, "p", 99, 7, none, "7/folders/0/", [], [1]⟩,
    ⟨1, "r", 99, 7, some 0, "7/folders/1/", [], [2]⟩,
    ⟨2, "a", 99, 7, some 1, "7/folders/2/", [], [3, 77]⟩,
    ⟨3, "b", 99, 7, some 2, "7/folders/3/", [10], []⟩],
   [⟨10, "q1.pdf", 99, 7, some 3, 10000, none, "7/folders/3/files/10-q1.pdf"⟩],
   [], 100, 200, []⟩

/-- Concrete store for the C1 witness: folder 1 with child folder 2 and a
file 10 inside folder 2; owners differ from the grantee 5. -/
def dbC1w : DB :=
  ⟨[⟨1, "r", 99, 7, none, "7/folders/1/", [], [2]⟩,
    ⟨2, "a", 98, 7, some 1, "7/folders/2/", [10], []⟩],
   [⟨10, "q1.pdf", 97, 7, some 2, 10000, none, "7/folders/2/files/10-q1.pdf"⟩],
   [], 100, 200, []⟩

/-- Concrete store for the C2 witness: one folder and one file owned by 42,
with no permission records at all. -/
def dbC2w : DB :=
  ⟨[⟨1, "r", 42, 7, none, "7/folders/1/", [], []⟩],
   [⟨10, "q1.pdf", 42, 7, some 1, 10000, none, "7/folders/1/files/10-q1.pdf"⟩],
   [], 100, 200, []⟩

/-- Concrete store for the C3 witness: folder 1 owned by 99; requester 5
holds a global grant lacking `write` and a resource-specific grant for
folder 1 that includes `write`, plus the mirror-image pair on folder 2. -/
def dbC3w : DB :=
  ⟨[⟨1, "r", 99, 7, none, "7/folders/1/", [], []⟩,
    ⟨2, "s", 99, 7, none, "7/folders/2/", [], []⟩],
   [],
   [⟨50, 5, none, none, [.read], true⟩,
    ⟨51, 5, some 1, some .folder, [.write], false⟩],
   100, 200, []⟩

/-- Concrete store for the C4 witness and counterexample: empty folder
collection, so every parent id is missing. -/
def dbC4w : DB := ⟨[], [], [], 100, 200, []⟩

/-- Concrete store for the C6 witness: folder 1 with child 2, a file 10 in
folder 2, an unrelated folder 3, and pre-existing permission records — one
for another user 8 on folder 2 (inside the subtree) and one for the grantee
5 on the unrelated folder 3 (outside the subtree). -/
def dbC6w : DB :=
  ⟨[⟨1, "r", 99, 7, none, "7/folders/1/", [], [2]⟩,
    ⟨2, "a", 99, 7, some 1, "7/folders/2/", [10], []⟩,
    ⟨3, "z", 99, 7, none, "7/folders/3/", [], []⟩],
   [⟨10, "q1.pdf", 99, 7, some 2, 10000, none, "7/folders/2/files/10-q1.pdf"⟩],
   [⟨60, 8, some 2, some .folder, [.write, .delete], false⟩,
    ⟨61, 5, some 3, some .folder, [.owner], false⟩],
   100, 200, []⟩

/-- Concrete store for the C9 witness: same tree as the C1 witness with an
empty permission collection. -/
def dbC9w : DB :=
  ⟨[⟨1, "r", 99, 7, none, "7/folders/1/", [], [2]⟩,
    ⟨2, "a", 98, 7, some 1, "7/folders/2/", [10], []⟩],
   [⟨10, "q1.pdf", 97, 7, some 2, 10000, none, "7/folders/2/files/10-q1.pdf"⟩],
   [], 100, 200, []⟩

/-- Concrete store for the C7 witness: a folder whose stored (sanitized)
name is `do_cs` under the root of workspace 7. -/
def dbC7w : DB :=
  ⟨[⟨1, "do_cs", 99, 7, none, "7/folders/1/", [], []⟩], [], [], 100, 200, []⟩

/-- Concrete store for the C10 witness: folder 1 already links child folder
2 and file 10. -/
def dbC10w : DB :=
  ⟨[⟨1, "r", 99, 7, none, "7/folders/1/", [10], [2]⟩,
    ⟨2, "a", 99, 7, some 1, "7/folders/2/", [], []⟩],
   [], [], 100, 200, []⟩

/-- The length of a list is unchanged by `updateFirst`. -/
theorem length_updateFirst {α : Type} (p : α → Bool) (g : α → α) :
    ∀ l : List α, (updateFirst p g l).length = l.length := by
  intro l
  induction l with
  | nil => rfl
  | cons y ys ih =>
    by_cases h : p y = true
    · simp [updateFirst, h]
    · simp [updateFirst, h, ih]

/-- A position holding a non-matching element is untouched by `updateFirst`. -/
theorem updateFirst_getElem? {α : Type} (p : α → Bool) (g : α → α) :
    ∀ (l : List α) (i : Nat) (x : α), l[i]? = some x → p x = false →
      (updateFirst p g l)[i]? = some x := by
  intro l
  induction l with
  | nil => intro i x h _; simp at h
  | cons y ys ih =>
    intro i x hx hp
    cases i with
    | zero =>
      simp at hx
      subst hx
      simp [updateFirst, hp]
    | succ n =>
      simp at hx
      by_cases hy : p y = true
      · simp [updateFirst, hy]
        exact hx
      · simp [updateFirst, hy]
        exact ih n x hx hp

/-- A non-matching element stays in the list across `updateFirst`. -/
theorem mem_updateFirst_of_ne {α : Type} (p : α → Bool) (g : α → α) :
    ∀ (l : List α) (x : α), x ∈ l → p x = false → x ∈ updateFirst p g l := by
  intro l
  induction l with
  | nil => intro x h _; simp at h
  | cons y ys ih =>
    intro x hx hp
    rcases List.mem_cons.mp hx with h | h
    · subst h
      simp [updateFirst, hp]
    · by_cases hy : p y = true
      · simp [updateFirst, hy]
        exact Or.inr h
      · simp [updateFirst, hy]
        exact Or.inr (ih x h hp)

/-- Mapping a function invariant under the rewrite commutes with `updateFirst`. -/
theorem map_updateFirst {α β : Type} (p : α → Bool) (g : α → α) (f : α → β)
    (hf : ∀ x, f (g x) = f x) :
    ∀ l : List α, (updateFirst p g l).map f = l.map f := by
  intro l
  induction l with
  | nil => rfl
  | cons y ys ih =>
    by_cases h : p y = true
    · simp [updateFirst, h, hf]
    · simp [updateFirst, h, ih]

/-- When the first match is a fixed point of the rewrite, `updateFirst` is
the identity. -/
theorem updateFirst_eq_self {α : Type} (p : α → Bool) (g : α → α) :
    ∀ l : List α, (∀ x, l.find? p = some x → g x = x) → updateFirst p g l = l := by
  intro l
  induction l with
  | nil => intro _; rfl
  | cons y ys ih =>
    intro h
    by_cases hy : p y = true
    · have := h y (by rw [List.find?_cons_of_pos _ hy])
      simp [updateFirst, hy, this]
    · have hrec := ih (fun x hx => h x (by rw [List.find?_cons_of_neg _ (by simp [hy])]; exact hx))
      simp [updateFirst, hy, hrec]

/-- When some element matches, `updateFirst` rewrites one matching element
and keeps it in the list. -/
theorem exists_mem_updateFirst {α : Type} (p : α → Bool) (g : α → α) :
    ∀ l : List α, l.any p = true → ∃ x ∈ l, p x = true ∧ g x ∈ updateFirst p g l := by
  intro l
  induction l with
  | nil => intro h; simp at h
  | cons y ys ih =>
    intro h
    by_cases hy : p y = true
    · exact ⟨y, List.mem_cons_self y ys, hy, by simp [updateFirst, hy]⟩
    · have hys : ys.any p = true := by
        rcases List.any_eq_true.mp h with ⟨x, hx, hpx⟩
        rcases List.mem_cons.mp hx with rfl | hx
        · exact absurd hpx hy
        · exact List.any_eq_true.mpr ⟨x, hx, hpx⟩
      rcases ih hys with ⟨x, hx, hpx, hg⟩
      exact ⟨x, List.mem_cons_of_mem y hx, hpx, by simp [updateFirst, hy]; exact Or.inr hg⟩

/-- A non-matching element survives `eraseFirst`. -/
theorem mem_eraseFirst_of_ne {α : Type} (q : α → Bool) :
    ∀ (l : List α) (x : α), x ∈ l → q x = false → x ∈ eraseFirst q l := by
  intro l
  induction l with
  | nil => intro x h _; simp at h
  | cons y ys ih =>
    intro x hx hq
    rcases List.mem_cons.mp hx with h | h
    · subst h
      simp [eraseFirst, hq]
    · by_cases hy : q y = true
      · simpa [eraseFirst, hy] using h
      · simp [eraseFirst, hy]
        exact Or.inr (ih x h hq)

/-- `eraseFirst` only removes elements. -/
theorem mem_of_mem_eraseFirst {α : Type} (q : α → Bool) :
    ∀ (l : List α) (x : α), x ∈ eraseFirst q l → x ∈ l := by
  intro l
  induction l with
  | nil => intro x h; simp [eraseFirst] at h
  | cons y ys ih =>
    intro x hx
    by_cases hy : q y = true
    · simp [eraseFirst, hy] at hx
      exact List.mem_cons_of_mem y hx
    · simp [eraseFirst, hy] at hx
      rcases hx with h | h
      · exact h ▸ List.mem_cons_self y ys
      · exact List.mem_cons_of_mem y (ih x h)

/-- When some element matches, `eraseFirst` removes exactly one element. -/
theorem length_eraseFirst_add_one {α : Type} (q : α → Bool) :
    ∀ l : List α, l.any q = true → (eraseFirst q l).length + 1 = l.length := by
  intro l
  induction l with
  | nil => intro h; simp at h
  | cons y ys ih =>
    intro h
    by_cases hy : q y = true
    · simp [eraseFirst, hy]
    · have hys : ys.any q = true := by
        rcases List.any_eq_true.mp h with ⟨x, hx, hqx⟩
        rcases List.mem_cons.mp hx with rfl | hx
        · exact absurd hqx hy
        · exact List.any_eq_true.mpr ⟨x, hx, hqx⟩
      simp [eraseFirst, hy, ih hys]

/-- Over a collection with pairwise-distinct keys, erasing by key removes
every record holding that key. -/
theorem eraseFirst_key_ne {α : Type} (f : α → Nat) (c : Nat) :
    ∀ l : List α, (l.map f).Nodup →
      ∀ x ∈ eraseFirst (fun y => f y == c) l, f x ≠ c := by
  intro l
  induction l with
  | nil => intro _ x h; simp [eraseFirst] at h
  | cons y ys ih =>
    intro hnd x hx
    rw [List.map_cons, List.nodup_cons] at hnd
    by_cases hy : (f y == c) = true
    · simp [eraseFirst, hy] at hx
      intro hc
      exact hnd.1 (by
        have : f y = c := by simpa using hy
        rw [this, ← hc]
        exact List.mem_map_of_mem f hx)
    · simp [eraseFirst, hy] at hx
      rcases hx with h | h
      · subst h
        simpa using hy
      · exact ih hnd.2 x h

/-- Boolean parent membership unfolded. -/
theorem parentInB_iff (s : Finset Nat) (f : Folder) :
    parentInB s f = true ↔ ∃ p, f.parentFolderId = some p ∧ p ∈ s := by
  cases h : f.parentFolderId with
  | none => simp [parentInB, h]
  | some p => simp [parentInB, h]

/-- Membership in one `$graphLookup` expansion layer. -/
theorem mem_childAdd {folders : List Folder} {s : Finset Nat} {x : Nat} :
    x ∈ childAdd folders s ↔
      ∃ f ∈ folders, (∃ p, f.parentFolderId = some p ∧ p ∈ s) ∧ f.id = x := by
  simp [childAdd, List.mem_filter, parentInB_iff]
  tauto

/-- Every expansion layer stays within the folder-record ids. -/
theorem childAdd_subset_allIds (folders : List Folder) (s : Finset Nat) :
    childAdd folders s ⊆ allIds folders := by
  intro x hx
  rcases mem_childAdd.mp hx with ⟨f, hf, _, rfl⟩
  exact List.mem_toFinset.mpr (List.mem_map_of_mem _ hf)

/-- The reachability step is inflationary. -/
theorem subset_stepF (folders : List Folder) (s : Finset Nat) : s ⊆ stepF folders s := by
  intro x hx
  exact Finset.mem_union_left _ hx

/-- The seed set is contained in every iterate. -/
theorem subset_iterF (folders : List Folder) :
    ∀ (k : Nat) (s : Finset Nat), s ⊆ iterF folders k s := by
  intro k
  induction k with
  | zero => intro s; exact subset_rfl
  | succ n ih =>
    intro s
    exact subset_trans (ih s) (subset_stepF folders (iterF folders n s))

/-- Every iterate lies in the seed joined with the folder-record ids. -/
theorem iterF_subset_union (folders : List Folder) :
    ∀ (k : Nat) (s : Finset Nat), iterF folders k s ⊆ s ∪ allIds folders := by
  intro k
  induction k with
  | zero => intro s; exact Finset.subset_union_left
  | succ n ih =>
    intro s x hx
    rcases Finset.mem_union.mp hx with h | h
    · exact ih s h
    · exact Finset.mem_union_right _ (childAdd_subset_allIds folders _ h)

/-- Saturation persists one step further. -/
theorem satAt_succ {folders : List Folder} {s : Finset Nat} {k : Nat}
    (h : SatAt folders s k) : SatAt folders s (k + 1) := by
  unfold SatAt at h ⊢
  show stepF folders (stepF folders (iterF folders k s)) = stepF folders (iterF folders k s)
  rw [h]
  exact h

/-- Saturation persists upward. -/
theorem satAt_mono {folders : List Folder} {s : Finset Nat} {j k : Nat}
    (hjk : j ≤ k) (h : SatAt folders s j) : SatAt folders s k := by
  induction hjk with
  | refl => exact h
  | step _ ih => exact satAt_succ ih

/-- An unsaturated step strictly grows the iterate. -/
theorem card_lt_of_not_sat {folders : List Folder} {s : Finset Nat} {k : Nat}
    (h : ¬ SatAt folders s k) :
    (iterF folders k s).card < (iterF folders (k + 1) s).card := by
  have hsub : iterF folders k s ⊆ iterF folders (k + 1) s :=
    subset_stepF folders (iterF folders k s)
  by_contra hlt
  push_neg at hlt
  have heq : iterF folders k s = iterF folders (k + 1) s :=
    Finset.eq_of_subset_of_card_le hsub hlt
  exact h heq.symm

/-- Without saturation the cardinality grows at least linearly. -/
theorem card_grow (folders : List Folder) (s : Finset Nat) :
    ∀ k : Nat, ¬ SatAt folders s k →
      s.card + (k + 1) ≤ (iterF folders (k + 1) s).card := by
  intro k
  induction k with
  | zero =>
    intro h
    have h1 := card_lt_of_not_sat h
    have h0 : (iterF folders 0 s).card = s.card := rfl
    omega
  | succ n ih =>
    intro h
    have hn : ¬ SatAt folders s n := fun hs => h (satAt_succ hs)
    have h1 := ih hn
    have h2 := card_lt_of_not_sat h
    omega

/-- After as many steps as there are folder records, the iteration from a
singleton seed has saturated. -/
theorem satAt_length (folders : List Folder) (r : Nat) :
    SatAt folders {r} folders.length := by
  by_contra h
  have hgrow := card_grow folders {r} folders.length h
  have hsub := iterF_subset_union folders (folders.length + 1) {r}
  have hcard : (iterF folders (folders.length + 1) {r}).card ≤
      ({r} ∪ allIds folders).card := Finset.card_le_card hsub
  have hub : ({r} ∪ allIds folders).card ≤ 1 + (allIds folders).card := by
    have := Finset.card_union_le ({r} : Finset Nat) (allIds folders)
    simpa using this
  have hids : (allIds folders).card ≤ folders.length := by
    have := List.toFinset_card_le (folders.map (fun f => f.id))
    simpa [allIds] using this
  have hr : ({r} : Finset Nat).card = 1 := Finset.card_singleton r
  omega

/-- The visited set of `$graphLookup` is closed under one more expansion. -/
theorem childAdd_visited_subset (folders : List Folder) (r : Nat) :
    childAdd folders (visitedOf folders r) ⊆ visitedOf folders r := by
  have h := satAt_length folders r
  intro x hx
  have hmem : x ∈ stepF folders (visitedOf folders r) := Finset.mem_union_right _ hx
  unfold SatAt at h
  unfold visitedOf
  exact h ▸ hmem

/-- The start folder is always visited. -/
theorem root_mem_visited (folders : List Folder) (r : Nat) : r ∈ visitedOf folders r :=
  subset_iterF folders folders.length {r} (Finset.mem_singleton_self r)

/-- Soundness of the iteration: everything visited is the root or a
transitive descendant. -/
theorem mem_iterF_sound (folders : List Folder) (r : Nat) :
    ∀ (k : Nat) (x : Nat), x ∈ iterF folders k {r} →
      x = r ∨ Descendant folders r x := by
  intro k
  induction k with
  | zero =>
    intro x hx
    exact Or.inl (Finset.mem_singleton.mp hx)
  | succ n ih =>
    intro x hx
    rcases Finset.mem_union.mp hx with h | h
    · exact ih x h
    · rcases mem_childAdd.mp h with ⟨f, hf, ⟨p, hp, hps⟩, rfl⟩
      rcases ih p hps with rfl | hd
      · exact Or.inr (Descendant.base f hf hp)
      · exact Or.inr (Descendant.step p f hd hf hp)

/-- Soundness of the visited set. -/
theorem mem_visited_sound {folders : List Folder} {r x : Nat}
    (h : x ∈ visitedOf folders r) : x = r ∨ Descendant folders r x :=
  mem_iterF_sound folders r folders.length x h

/-- Every id in the `$graphLookup` output is a transitive descendant. -/
theorem nested_sound {folders : List Folder} {r x : Nat}
    (h : x ∈ nestedFolderIdsOf folders r) : Descendant folders r x := by
  unfold nestedFolderIdsOf at h
  by_cases hroot : (findFolder folders r).isSome = true
  · rw [if_pos hroot] at h
    rcases List.mem_map.mp h with ⟨f, hf, rfl⟩
    have hfil := List.mem_filter.mp hf
    rcases (parentInB_iff _ _).mp hfil.2 with ⟨p, hp, hpv⟩
    rcases mem_visited_sound hpv with rfl | hd
    · exact Descendant.base f hfil.1 hp
    · exact Descendant.step p f hd hfil.1 hp
  · rw [if_neg hroot] at h
    simp at h

/-- Completeness toward the visited set: every transitive descendant is
eventually visited. -/
theorem descendant_mem_visited {folders : List Folder} {r d : Nat}
    (h : Descendant folders r d) : d ∈ visitedOf folders r := by
  induction h with
  | base f hf hp =>
    exact childAdd_visited_subset folders r
      (mem_childAdd.mpr ⟨f, hf, ⟨r, hp, root_mem_visited folders r⟩, rfl⟩)
  | step p f _ hf hp ih =>
    exact childAdd_visited_subset folders r
      (mem_childAdd.mpr ⟨f, hf, ⟨p, hp, ih⟩, rfl⟩)

/-- Completeness of the `$graphLookup` output: when the start folder
exists, every transitive descendant id is listed. -/
theorem descendant_mem_nested {folders : List Folder} {r d : Nat}
    (hroot : (findFolder folders r).isSome = true)
    (h : Descendant folders r d) : d ∈ nestedFolderIdsOf folders r := by
  unfold nestedFolderIdsOf
  rw [if_pos hroot]
  rcases h with ⟨f, hf, hp⟩ | ⟨p, f, hd, hf, hp⟩
  · exact List.mem_map_of_mem _ (List.mem_filter.mpr
      ⟨hf, (parentInB_iff _ _).mpr ⟨r, hp, root_mem_visited folders r⟩⟩)
  · exact List.mem_map_of_mem _ (List.mem_filter.mpr
      ⟨hf, (parentInB_iff _ _).mpr ⟨p, hp, descendant_mem_visited hd⟩⟩)

/-- The upsert key test unfolded to propositions. -/
theorem permKeyB_iff {u tid : Nat} {tty : TargetType} {p : Permission} :
    permKeyB u tid tty p = true ↔
      p.userId = u ∧ p.targetId = some tid ∧ p.targetType = some tty := by
  simp [permKeyB, Bool.and_eq_true]
  tauto

/-- Every transitive descendant folder appears among the propagation items. -/
theorem folder_item_mem {folders : List Folder} {files : List FileDoc} {r d : Nat}
    (hroot : (findFolder folders r).isSome = true) (h : Descendant folders r d) :
    NestedItem.mk d .folder ∈ getAllNestedFoldersAndFiles folders files r := by
  have hd : d ∈ nestedFolderIdsOf folders r := descendant_mem_nested hroot h
  exact List.mem_append_left _ (List.mem_map.mpr ⟨d, hd, rfl⟩)

/-- Every file in the subtree appears among the propagation items. -/
theorem file_item_mem {folders : List Folder} {files : List FileDoc} {r : Nat}
    {fl : FileDoc} (hroot : (findFolder folders r).isSome = true) (hfl : fl ∈ files)
    (hin : fl.folderId = some r ∨ ∃ d, Descendant folders r d ∧ fl.folderId = some d) :
    NestedItem.mk fl.id .file ∈ getAllNestedFoldersAndFiles folders files r := by
  refine List.mem_append_right _ (List.mem_map.mpr ⟨fl.id, List.mem_map.mpr ⟨fl, ?_, rfl⟩, rfl⟩)
  refine List.mem_filter.mpr ⟨hfl, ?_⟩
  rcases hin with h | ⟨d, hd, h⟩
  · simp [h]
  · have hmem : d ∈ r :: nestedFolderIdsOf folders r :=
      List.mem_cons_of_mem _ (descendant_mem_nested hroot hd)
    simp [h]
    exact Or.inr (descendant_mem_nested hroot hd)

/-- Every propagation item is a descendant folder or a subtree file. -/
theorem item_sound {folders : List Folder} {files : List FileDoc} {r : Nat}
    {it : NestedItem} (h : it ∈ getAllNestedFoldersAndFiles folders files r) :
    (it.type = .folder ∧ Descendant folders r it.id) ∨
      (it.type = .file ∧ FileInSubtree folders files r it.id) := by
  unfold getAllNestedFoldersAndFiles at h
  rcases List.mem_append.mp h with h | h
  · rcases List.mem_map.mp h with ⟨d, hd, rfl⟩
    exact Or.inl ⟨rfl, nested_sound hd⟩
  · rcases List.mem_map.mp h with ⟨i, hi, rfl⟩
    rcases List.mem_map.mp hi with ⟨fl, hfl, rfl⟩
    have hfil := List.mem_filter.mp hfl
    refine Or.inr ⟨rfl, ?_⟩
    cases hq : fl.folderId with
    | none => rw [hq] at hfil; simp at hfil
    | some dd =>
      rw [hq] at hfil
      have hdd : dd = r ∨ dd ∈ nestedFolderIdsOf folders r := by
        have := hfil.2
        simpa using this
      rcases hdd with rfl | hdd
      · exact ⟨fl, hfil.1, rfl, Or.inl hq⟩
      · exact ⟨fl, hfil.1, rfl, Or.inr ⟨dd, nested_sound hdd, hq⟩⟩

/-- One propagation upsert leaves the folder collection unchanged. -/
theorem applyPropUpsert_folders (db : DB) (u tid : Nat) (tty : TargetType)
    (lvls : List AccessLevel) : (applyPropUpsert db u tid tty lvls).folders = db.folders := by
  unfold applyPropUpsert
  split <;> rfl

/-- One propagation upsert leaves the file collection unchanged. -/
theorem applyPropUpsert_files (db : DB) (u tid : Nat) (tty : TargetType)
    (lvls : List AccessLevel) : (applyPropUpsert db u tid tty lvls).files = db.files := by
  unfold applyPropUpsert
  split <;> rfl

/-- The propagation fold leaves the folder collection unchanged. -/
theorem foldl_upsert_folders (u : Nat) (lvls : List AccessLevel) :
    ∀ (items : List NestedItem) (acc : DB),
      (items.foldl (fun a it => applyPropUpsert a u it.id it.type lvls) acc).folders =
        acc.folders := by
  intro items
  induction items with
  | nil => intro acc; rfl
  | cons i rest ih =>
    intro acc
    rw [List.foldl_cons, ih, applyPropUpsert_folders]

/-- The propagation fold leaves the file collection unchanged. -/
theorem foldl_upsert_files (u : Nat) (lvls : List AccessLevel) :
    ∀ (items : List NestedItem) (acc : DB),
      (items.foldl (fun a it => applyPropUpsert a u it.id it.type lvls) acc).files =
        acc.files := by
  intro items
  induction items with
  | nil => intro acc; rfl
  | cons i rest ih =>
    intro acc
    rw [List.foldl_cons, ih, applyPropUpsert_files]

/-- `propagatePermissions` touches only the permission collection (folders). -/
theorem propagate_folders (db : DB) (u fid : Nat) (lvls : List AccessLevel) :
    (propagatePermissions db u fid lvls).folders = db.folders :=
  foldl_upsert_folders u lvls _ db

/-- `propagatePermissions` touches only the permission collection (files). -/
theorem propagate_files (db : DB) (u fid : Nat) (lvls : List AccessLevel) :
    (propagatePermissions db u fid lvls).files = db.files :=
  foldl_upsert_files u lvls _ db

/-- `grantSpecificPermission` touches only the permission collection (folders). -/
theorem grant_folders (db : DB) (u tid : Nat) (tty : TargetType)
    (lvls : List AccessLevel) :
    (grantSpecificPermission db u tid tty lvls).folders = db.folders := by
  unfold grantSpecificPermission
  cases tty with
  | folder =>
    dsimp only
    rw [propagate_folders]
    split <;> rfl
  | file =>
    dsimp only
    split <;> rfl

/-- `grantSpecificPermission` touches only the permission collection (files). -/
theorem grant_files (db : DB) (u tid : Nat) (tty : TargetType)
    (lvls : List AccessLevel) :
    (grantSpecificPermission db u tid tty lvls).files = db.files := by
  unfold grantSpecificPermission
  cases tty with
  | folder =>
    dsimp only
    rw [propagate_files]
    split <;> rfl
  | file =>
    dsimp only
    split <;> rfl

/-- After one propagation upsert, a record with the upsert key carries
exactly the granted access-level set and is non-global. -/
theorem applyPropUpsert_exists (db : DB) (u tid : Nat) (tty : TargetType)
    (lvls : List AccessLevel) :
    ∃ p ∈ (applyPropUpsert db u tid tty lvls).perms,
      p.userId = u ∧ p.targetId = some tid ∧ p.targetType = some tty ∧
        p.accessLevel = lvls ∧ p.isGlobal = false := by
  unfold applyPropUpsert
  by_cases h : db.perms.any (permKeyB u tid tty) = true
  · rw [if_pos h]
    rcases exists_mem_updateFirst (permKeyB u tid tty)
      (fun p => { p with accessLevel := lvls, isGlobal := false }) db.perms h with
      ⟨x, _, hpx, hg⟩
    have hk := permKeyB_iff.mp hpx
    exact ⟨{ x with accessLevel := lvls, isGlobal := false }, hg,
      hk.1, hk.2.1, hk.2.2, rfl, rfl⟩
  · rw [if_neg h]
    exact ⟨⟨db.nextPermId, u, some tid, some tty, lvls, false⟩,
      List.mem_append_right _ (List.mem_singleton_self _), rfl, rfl, rfl, rfl, rfl⟩

/-- A keyed record carrying the granted set survives a further propagation
upsert for the same grantee and set. -/
theorem applyPropUpsert_preserve (db : DB) (u tid : Nat) (tty : TargetType)
    (lvls : List AccessLevel) (K : Nat) (Kty : TargetType)
    (h : ∃ p ∈ db.perms,
      p.userId = u ∧ p.targetId = some K ∧ p.targetType = some Kty ∧
        p.accessLevel = lvls ∧ p.isGlobal = false) :
    ∃ p ∈ (applyPropUpsert db u tid tty lvls).perms,
      p.userId = u ∧ p.targetId = some K ∧ p.targetType = some Kty ∧
        p.accessLevel = lvls ∧ p.isGlobal = false := by
  by_cases hkey : tid = K ∧ tty = Kty
  · rcases hkey with ⟨rfl, rfl⟩
    exact applyPropUpsert_exists db u tid tty lvls
  · rcases h with ⟨p, hp, h1, h2, h3, h4, h5⟩
    have hnk : permKeyB u tid tty p = false := by
      rw [Bool.eq_false_iff]
      intro htrue
      have hk := permKeyB_iff.mp htrue
      rw [h2] at hk
      rw [h3] at hk
      exact hkey ⟨(Option.some_inj.mp hk.2.1).symm, (Option.some_inj.mp hk.2.2).symm⟩
    unfold applyPropUpsert
    by_cases hany : db.perms.any (permKeyB u tid tty) = true
    · rw [if_pos hany]
      exact ⟨p, mem_updateFirst_of_ne _ _ db.perms p hp hnk, h1, h2, h3, h4, h5⟩
    · rw [if_neg hany]
      exact ⟨p, List.mem_append_left _ hp, h1, h2, h3, h4, h5⟩

/-- A keyed record carrying the granted set survives the whole propagation
fold. -/
theorem foldl_upsert_preserve (u : Nat) (lvls : List AccessLevel) (K : Nat)
    (Kty : TargetType) :
    ∀ (items : List NestedItem) (acc : DB),
      (∃ p ∈ acc.perms,
        p.userId = u ∧ p.targetId = some K ∧ p.targetType = some Kty ∧
          p.accessLevel = lvls ∧ p.isGlobal = false) →
      ∃ p ∈ (items.foldl (fun a it => applyPropUpsert a u it.id it.type lvls) acc).perms,
        p.userId = u ∧ p.targetId = some K ∧ p.targetType = some Kty ∧
          p.accessLevel = lvls ∧ p.isGlobal = false := by
  intro items
  induction items with
  | nil => intro acc h; exact h
  | cons i rest ih =>
    intro acc h
    rw [List.foldl_cons]
    exact ih _ (applyPropUpsert_preserve acc u i.id i.type lvls K Kty h)

/-- After the propagation fold every listed item has a non-global record
with the upsert key and exactly the granted set. -/
theorem foldl_upsert_exists (u : Nat) (lvls : List AccessLevel) :
    ∀ (items : List NestedItem) (acc : DB) (it : NestedItem), it ∈ items →
      ∃ p ∈ (items.foldl (fun a i => applyPropUpsert a u i.id i.type lvls) acc).perms,
        p.userId = u ∧ p.targetId = some it.id ∧ p.targetType = some it.type ∧
          p.accessLevel = lvls ∧ p.isGlobal = false := by
  intro items
  induction items with
  | nil => intro acc it h; simp at h
  | cons i rest ih =>
    intro acc it hit
    rcases List.mem_cons.mp hit with rfl | h
    · rw [List.foldl_cons]
      exact foldl_upsert_preserve u lvls it.id it.type rest _
        (applyPropUpsert_exists acc u it.id it.type lvls)
    · rw [List.foldl_cons]
      exact ih _ it h

/-- A position holding a record that never matches the upsert key is
untouched by one propagation upsert. -/
theorem applyPropUpsert_getElem? (db : DB) (u tid : Nat) (tty : TargetType)
    (lvls : List AccessLevel) (i : Nat) (x : Permission)
    (hx : db.perms[i]? = some x) (hnk : permKeyB u tid tty x = false) :
    (applyPropUpsert db u tid tty lvls).perms[i]? = some x := by
  unfold applyPropUpsert
  by_cases h : db.perms.any (permKeyB u tid tty) = true
  · rw [if_pos h]
    exact updateFirst_getElem? _ _ db.perms i x hx hnk
  · rw [if_neg h]
    have hi : i < db.perms.length := by
      by_contra hge
      push_neg at hge
      rw [List.getElem?_eq_none hge] at hx
      exact Option.noConfusion hx
    dsimp only
    rw [List.getElem?_append_left hi]
    exact hx

/-- A position holding a record matching none of the item keys is untouched
by the whole propagation fold. -/
theorem foldl_upsert_getElem? (u : Nat) (lvls : List AccessLevel) :
    ∀ (items : List NestedItem) (acc : DB) (i : Nat) (x : Permission),
      acc.perms[i]? = some x →
      (∀ it ∈ items, permKeyB u it.id it.type x = false) →
      (items.foldl (fun a it => applyPropUpsert a u it.id it.type lvls) acc).perms[i]? =
        some x := by
  intro items
  induction items with
  | nil => intro acc i x hx _; exact hx
  | cons it rest ih =>
    intro acc i x hx hall
    rw [List.foldl_cons]
    exact ih _ i x
      (applyPropUpsert_getElem? acc u it.id it.type lvls i x hx
        (hall it (List.mem_cons_self it rest)))
      (fun j hj => hall j (List.mem_cons_of_mem it hj))

/-- The global-tier query unfolded to propositions. -/
theorem hasGlobalB_iff {perms : List Permission} {u : Nat} {action : AccessLevel} :
    hasGlobalB perms u action = true ↔
      ∃ p ∈ perms, p.userId = u ∧ p.isGlobal = true ∧ action ∈ p.accessLevel := by
  unfold hasGlobalB
  rw [List.any_eq_true]
  constructor
  · rintro ⟨p, hp, hb⟩
    simp only [Bool.and_eq_true, beq_iff_eq] at hb
    exact ⟨p, hp, hb.1.1, hb.1.2, List.mem_of_elem_eq_true hb.2⟩
  · rintro ⟨p, hp, h1, h2, h3⟩
    exact ⟨p, hp, by simp [h1, h2, h3]⟩

/-- The specific-tier query unfolded to propositions. -/
theorem hasSpecificB_iff {perms : List Permission} {u : Nat} {resource : TargetType}
    {rid : Nat} {action : AccessLevel} :
    hasSpecificB perms u resource rid action = true ↔
      ∃ p ∈ perms, p.userId = u ∧ p.isGlobal = false ∧ p.targetType = some resource ∧
        p.targetId = some rid ∧ action ∈ p.accessLevel := by
  unfold hasSpecificB
  rw [List.any_eq_true]
  constructor
  · rintro ⟨p, hp, hb⟩
    simp only [Bool.and_eq_true, beq_iff_eq, Bool.not_eq_true'] at hb
    exact ⟨p, hp, hb.1.1.1.1, hb.1.1.1.2, hb.1.1.2, hb.1.2, List.mem_of_elem_eq_true hb.2⟩
  · rintro ⟨p, hp, h1, h2, h3, h4, h5⟩
    exact ⟨p, hp, by simp [h1, h2, h3, h4, h5]⟩

/-- Any decision that reaches a true specific-tier query is allow. -/
theorem checkPermission_allow_of_specific (db : DB) (resource : TargetType)
    (rid uid : Nat) (action : AccessLevel) (owner : Nat)
    (hres : resolveOwner db resource rid = some owner)
    (hspec : hasSpecificB db.perms uid resource rid action = true) :
    checkPermission db resource rid uid action = .allow := by
  simp only [checkPermission, hres]
  by_cases h1 : owner = uid
  · rw [if_pos h1]
  · rw [if_neg h1]
    by_cases h2 : hasGlobalB db.perms uid action = true
    · rw [if_pos h2]
    · rw [if_neg h2, if_pos hspec]

/-- C2: for every resource (file or folder) whose recorded owning user id
equals the requesting user's id, `checkPermission` answers allow for every
action, whatever the permission collection holds. -/
theorem claim_C2 (db : DB) (resource : TargetType) (resourceId userId : Nat)
    (action : AccessLevel)
    (hown : resolveOwner db resource resourceId = some userId) :
    checkPermission db resource resourceId userId action = .allow := by
  simp [checkPermission, hown]

/-- Witness for C2 on a concrete store with no permission records. -/
theorem claim_C2_witness :
    resolveOwner dbC2w .folder 1 = some 42 ∧
      checkPermission dbC2w .folder 1 42 .delete = .allow :=
  ⟨by decide, claim_C2 dbC2w .folder 1 42 .delete (by decide)⟩

/-- C3: for a non-owner, either tier suffices — a global record containing
the action allows, a resource-specific record for exactly this
(resourceId, resourceType) containing the action allows — and when neither
tier contains the action the decision is Forbidden, a failure distinct from
NotFound. -/
theorem claim_C3 (db : DB) (resource : TargetType) (resourceId userId ownerId : Nat)
    (action : AccessLevel)
    (hown : resolveOwner db resource resourceId = some ownerId)
    (hne : ownerId ≠ userId) :
    ((∃ p ∈ db.perms, p.userId = userId ∧ p.isGlobal = true ∧ action ∈ p.accessLevel) →
      checkPermission db resource resourceId userId action = .allow) ∧
    ((∃ p ∈ db.perms, p.userId = userId ∧ p.isGlobal = false ∧
        p.targetType = some resource ∧ p.targetId = some resourceId ∧
          action ∈ p.accessLevel) →
      checkPermission db resource resourceId userId action = .allow) ∧
    ((¬ (∃ p ∈ db.perms, p.userId = userId ∧ p.isGlobal = true ∧ action ∈ p.accessLevel)) ∧
      (¬ (∃ p ∈ db.perms, p.userId = userId ∧ p.isGlobal = false ∧
        p.targetType = some resource ∧ p.targetId = some resourceId ∧
          action ∈ p.accessLevel)) →
      checkPermission db resource resourceId userId action = .forbidden ∧
        Decision.forbidden ≠ Decision.notFound) := by
  refine ⟨?_, ?_, ?_⟩
  · intro hg
    simp only [checkPermission, hown]
    rw [if_neg (fun h => hne h), if_pos (hasGlobalB_iff.mpr hg)]
  · intro hs
    exact checkPermission_allow_of_specific db resource resourceId userId action ownerId
      hown (hasSpecificB_iff.mpr hs)
  · rintro ⟨hg, hs⟩
    have hgb : hasGlobalB db.perms userId action = false := by
      rw [Bool.eq_false_iff]
      intro h
      exact hg (hasGlobalB_iff.mp h)
    have hsb : hasSpecificB db.perms userId resource resourceId action = false := by
      rw [Bool.eq_false_iff]
      intro h
      exact hs (hasSpecificB_iff.mp h)
    refine ⟨?_, by decide⟩
    simp only [checkPermission, hown]
    rw [if_neg (fun h => hne h), if_neg (by simp [hgb]), if_neg (by simp [hsb])]

/-- Witness for C3: requester 5 is not the owner 99; the specific grant
adds `write` beyond the global grant, the global grant supplies `read`
despite the specific record omitting it, and `delete` — in neither — is
Forbidden. -/
theorem claim_C3_witness :
    resolveOwner dbC3w .folder 1 = some 99 ∧ (99 : Nat) ≠ 5 ∧
      checkPermission dbC3w .folder 1 5 .write = .allow ∧
      checkPermission dbC3w .folder 1 5 .read = .allow ∧
      checkPermission dbC3w .folder 1 5 .delete = .forbidden :=
  ⟨by decide, by decide,
    (claim_C3 dbC3w .folder 1 5 99 .write (by decide) (by decide)).2.1 (by decide),
    (claim_C3 dbC3w .folder 1 5 99 .read (by decide) (by decide)).1 (by decide),
    ((claim_C3 dbC3w .folder 1 5 99 .delete (by decide) (by decide)).2.2
      ⟨by decide, by decide⟩).1⟩

/-- C8: updating a folder or a file never changes any persisted storage
key, even when the payload carries one, and records with a different id are
untouched. -/
theorem claim_C8 (db : DB) (id : Nat) (folderData : FolderUpdate) (fileData : FileUpdate) :
    ((updateFolder db id folderData).folders.map (fun f => f.s3Key) =
        db.folders.map (fun f => f.s3Key) ∧
      ∀ f ∈ db.folders, f.id ≠ id → f ∈ (updateFolder db id folderData).folders) ∧
    ((updateFile db id fileData).files.map (fun fl => fl.s3Key) =
        db.files.map (fun fl => fl.s3Key) ∧
      ∀ fl ∈ db.files, fl.id ≠ id → fl ∈ (updateFile db id fileData).files) := by
  refine ⟨⟨?_, ?_⟩, ?_, ?_⟩
  · unfold updateFolder
    dsimp only
    apply map_updateFirst
    intro x
    rfl
  · intro f hf hne
    unfold updateFolder
    dsimp only
    exact mem_updateFirst_of_ne _ _ db.folders f hf (beq_eq_false_iff_ne.mpr hne)
  · unfold updateFile
    dsimp only
    apply map_updateFirst
    intro x
    rfl
  · intro fl hfl hne
    unfold updateFile
    dsimp only
    exact mem_updateFirst_of_ne _ _ db.files fl hfl (beq_eq_false_iff_ne.mpr hne)

/-- Witness for C8: a payload carrying a storage key leaves the sibling
record untouched (the key-preservation conjuncts are hypothesis-free). -/
theorem claim_C8_witness :
    ((⟨2, "a", 99, 7, some 1, "7/folders/2/", [], []⟩ : Folder) ∈ dbC10w.folders ∧
        (2 : Nat) ≠ 1) ∧
      (⟨2, "a", 99, 7, some 1, "7/folders/2/", [], []⟩ : Folder) ∈
        (updateFolder dbC10w 1
          ⟨some "renamed", none, none, none, some "EVIL/", none, none⟩).folders :=
  ⟨⟨by decide, by decide⟩,
    (claim_C8 dbC10w 1 ⟨some "renamed", none, none, none, some "EVIL/", none, none⟩
      ⟨none, none, none, none, none, some (some "x"), some "EVIL2"⟩).1.2 _
      (by decide) (by decide)⟩

/-- C7: a second `createFolder` whose name sanitizes to the stored
(sanitized) name of an existing sibling in the same workspace fails with
Conflict and leaves the store untouched. -/
theorem claim_C7 (db : DB) (folderName : String) (userId businessId : Nat)
    (parentFolderId : Option Nat) (g : Folder)
    (hne : folderName ≠ "")
    (hg : g ∈ db.folders) (hb : g.businessId = businessId)
    (hp : g.parentFolderId = parentFolderId)
    (hn : g.folderName = sanitizeFolderName (jsTrim folderName)) :
    createFolder db folderName userId businessId parentFolderId = (.error .conflict, db) := by
  unfold createFolder
  rw [if_neg hne]
  dsimp only
  rw [if_pos (List.any_eq_true.mpr ⟨g, hg, by simp [hb, hp, hn]⟩)]

/-- Witness for C7: the stored sibling name `do_cs` collides with the raw
input `do cs` after sanitization. -/
theorem claim_C7_witness :
    ("do cs" : String) ≠ "" ∧
      (⟨1, "do_cs", 99, 7, none, "7/folders/1/", [], []⟩ : Folder) ∈ dbC7w.folders ∧
      createFolder dbC7w "do cs" 4 7 none = (.error .conflict, dbC7w) :=
  ⟨by decide, by decide,
    claim_C7 dbC7w "do cs" 4 7 none ⟨1, "do_cs", 99, 7, none, "7/folders/1/", [], []⟩
      (by decide) (by decide) (by decide) (by decide) (by decide)⟩

/-- `$addToSet` no-op: adding an already-linked file id leaves the store
byte-for-byte unchanged. -/
theorem addFileToFolder_already (db : DB) (fileId folderId : Nat) (parent : Folder)
    (hfind : findFolder db.folders folderId = some parent)
    (hmem : fileId ∈ parent.fileIds) :
    addFileToFolder db fileId folderId = .ok db := by
  unfold addFileToFolder
  rw [hfind]
  rw [if_pos (show (some parent).isSome = true from rfl)]
  have hself : updateFirst (fun f => f.id == folderId)
      (fun f => { f with fileIds :=
        if f.fileIds.contains fileId then f.fileIds else f.fileIds ++ [fileId] })
      db.folders = db.folders := by
    apply updateFirst_eq_self
    intro x hx
    have hxp : x = parent := by
      have : findFolder db.folders folderId = some x := hx
      rw [hfind] at this
      exact (Option.some_inj.mp this).symm
    rw [hxp]
    have hcont : List.contains parent.fileIds fileId = true := List.elem_eq_true_of_mem hmem
    rw [if_pos hcont]
  rw [hself]

/-- C10: child-id lists keep set semantics — relinking an already-linked
child folder returns without writing, `$addToSet` makes relinking a file id
a no-op, and `completeUpload` into a folder already listing the file id
leaves every folder record (hence `fileIds`) unchanged. -/
theorem claim_C10 (db : DB) :
    (∀ (parentId childId : Nat) (parent : Folder),
        findFolder db.folders parentId = some parent →
        childId ∈ parent.folderIds →
        addChildFolderToFolder db parentId childId = .ok db) ∧
    (∀ (fileId folderId : Nat) (parent : Folder),
        findFolder db.folders folderId = some parent →
        fileId ∈ parent.fileIds →
        addFileToFolder db fileId folderId = .ok db) ∧
    (∀ (fileId userId businessId folderId : Nat) (parent : Folder)
        (fileName s3Key : String) (fileSize : Int) (contentType : Option String),
        findFolder db.folders folderId = some parent →
        fileId ∈ parent.fileIds →
        (completeUpload db fileId userId businessId (some folderId) fileName fileSize
            contentType s3Key).2.folders = db.folders) := by
  refine ⟨?_, ?_, ?_⟩
  · intro parentId childId parent hfind hmem
    unfold addChildFolderToFolder
    rw [hfind]
    dsimp only
    have hcont : List.contains parent.folderIds childId = true := List.elem_eq_true_of_mem hmem
    rw [if_pos hcont]
  · intro fileId folderId parent hfind hmem
    exact addFileToFolder_already db fileId folderId parent hfind hmem
  · intro fileId userId businessId folderId parent fileName s3Key fileSize contentType
      hfind hmem
    unfold completeUpload
    by_cases hkey : s3Key = ""
    · rw [if_pos hkey]
    · rw [if_neg hkey]
      by_cases hex : (findFile db.files fileId).isSome = true
      · rw [if_pos hex]
      · rw [if_neg hex]
        dsimp only
        have ha := addFileToFolder_already
          { db with files := db.files ++
              [⟨fileId, sanitizeFilename (jsTrim fileName), userId, businessId,
                some folderId, fileSize, contentType, s3Key⟩] }
          fileId folderId parent hfind hmem
        rw [ha]

/-- Witness for C10 on a store whose folder 1 already links child folder 2
and file 10. -/
theorem claim_C10_witness :
    (findFolder dbC10w.folders 1 =
        some ⟨1, "r", 99, 7, none, "7/folders/1/", [10], [2]⟩ ∧
      (2 : Nat) ∈ ([2] : List Nat) ∧ (10 : Nat) ∈ ([10] : List Nat)) ∧
      addChildFolderToFolder dbC10w 1 2 = .ok dbC10w ∧
      addFileToFolder dbC10w 10 1 = .ok dbC10w ∧
      (completeUpload dbC10w 10 5 7 (some 1) "x.txt" 3 none "k").2.folders =
        dbC10w.folders :=
  ⟨⟨by decide, by decide, by decide⟩,
    (claim_C10 dbC10w).1 1 2 ⟨1, "r", 99, 7, none, "7/folders/1/", [10], [2]⟩
      (by decide) (by decide),
    (claim_C10 dbC10w).2.1 10 1 ⟨1, "r", 99, 7, none, "7/folders/1/", [10], [2]⟩
      (by decide) (by decide),
    (claim_C10 dbC10w).2.2 10 5 7 1 ⟨1, "r", 99, 7, none, "7/folders/1/", [10], [2]⟩
      "x.txt" "k" 3 none (by decide) (by decide)⟩

/-- C4 as stated is refuted: `createFolder` persists the new folder record
before the missing-parent failure.  On an empty store the call with parent
id 5 returns NotFound yet one folder record was persisted. -/
theorem claim_C4_counterexample :
    errOf (createFolder dbC4w "docs" 1 2 (some 5)).1 = some .notFound ∧
      (createFolder dbC4w "docs" 1 2 (some 5)).2.folders.length = 1 := by
  decide

/-- C4 amended: with a fresh valid name, no sibling conflict and a missing
parent id, `createFolder` fails with NotFound — but only after persisting
the new folder record, which remains in the store; no same-workspace check
is performed on the parent. -/
theorem claim_C4_amended (db : DB) (folderName : String) (userId businessId pid : Nat)
    (hne : folderName ≠ "")
    (hdup : (db.folders.any fun f =>
      f.businessId == businessId && f.parentFolderId == some pid &&
        f.folderName == sanitizeFolderName (jsTrim folderName)) = false)
    (hsan : jsTrim (sanitizeFolderName (jsTrim folderName)) ≠ "")
    (hmiss : findFolder db.folders pid = none)
    (hfresh : pid ≠ db.nextFolderId) :
    createFolder db folderName userId businessId (some pid) =
      (.error .notFound,
        { db with
            folders := db.folders ++
              [⟨db.nextFolderId, sanitizeFolderName (jsTrim folderName), userId,
                businessId, some pid, folderKeyOf businessId db.nextFolderId, [], []⟩],
            nextFolderId := db.nextFolderId + 1 }) := by
  unfold createFolder
  rw [if_neg hne]
  dsimp only
  rw [if_neg (by simp [hdup])]
  rw [if_neg hsan]
  have hchild : addChildFolderToFolder
      { db with
          folders := db.folders ++
            [⟨db.nextFolderId, sanitizeFolderName (jsTrim folderName), userId,
              businessId, some pid, folderKeyOf businessId db.nextFolderId, [], []⟩],
          nextFolderId := db.nextFolderId + 1 } pid db.nextFolderId = .error .notFound := by
    unfold addChildFolderToFolder
    have hnone : findFolder
        (db.folders ++
          [⟨db.nextFolderId, sanitizeFolderName (jsTrim folderName), userId,
            businessId, some pid, folderKeyOf businessId db.nextFolderId, [], []⟩]) pid =
        none := by
      unfold findFolder at hmiss ⊢
      rw [List.find?_append, hmiss]
      simp [List.find?, beq_eq_false_iff_ne.mpr (fun h => hfresh h.symm)]
    rw [hnone]
  rw [hchild]

/-- Witness for the amended C4 on the empty store. -/
theorem claim_C4_amended_witness :
    (("docs" : String) ≠ "" ∧
      findFolder dbC4w.folders 5 = none ∧ (5 : Nat) ≠ dbC4w.nextFolderId) ∧
      createFolder dbC4w "docs" 1 2 (some 5) =
        (.error .notFound,
          { dbC4w with
              folders := [⟨dbC4w.nextFolderId, sanitizeFolderName (jsTrim "docs"), 1, 2,
                some 5, folderKeyOf 2 dbC4w.nextFolderId, [], []⟩],
              nextFolderId := dbC4w.nextFolderId + 1 }) :=
  ⟨⟨by decide, by decide, by decide⟩,
    claim_C4_amended dbC4w "docs" 1 2 5 (by decide) (by decide) (by decide)
      (by decide) (by decide)⟩

/-- C5: on the concrete tree P(0) → root(1) → A(2) → B(3) with file 10 in B
and a stale child id 77 (no record) in A, `deleteFolder root` succeeds (the
missing child is silently skipped), leaves no folder record for 1, 2, 3 and
no file record, unlinks 1 from P's `folderIds`, and for each of the three
folders the blob prefix-delete precedes that folder's metadata delete in
the event log. -/
theorem claim_C5 :
    isOkB (deleteFolder dbC5 1) = true ∧
    (outDB dbC5 (deleteFolder dbC5 1)).folders =
      [⟨0, "p", 99, 7, none, "7/folders/0/", [], []⟩] ∧
    (outDB dbC5 (deleteFolder dbC5 1)).files = [] ∧
    ((outDB dbC5 (deleteFolder dbC5 1)).log.contains
        (.deletePrefixCall "7/folders/1/") = true ∧
      (outDB dbC5 (deleteFolder dbC5 1)).log.contains (.deleteFolderDocCall 1) = true ∧
      (outDB dbC5 (deleteFolder dbC5 1)).log.indexOf (.deletePrefixCall "7/folders/1/") <
        (outDB dbC5 (deleteFolder dbC5 1)).log.indexOf (.deleteFolderDocCall 1)) ∧
    ((outDB dbC5 (deleteFolder dbC5 1)).log.contains
        (.deletePrefixCall "7/folders/2/") = true ∧
      (outDB dbC5 (deleteFolder dbC5 1)).log.contains (.deleteFolderDocCall 2) = true ∧
      (outDB dbC5 (deleteFolder dbC5 1)).log.indexOf (.deletePrefixCall "7/folders/2/") <
        (outDB dbC5 (deleteFolder dbC5 1)).log.indexOf (.deleteFolderDocCall 2)) ∧
    ((outDB dbC5 (deleteFolder dbC5 1)).log.contains
        (.deletePrefixCall "7/folders/3/") = true ∧
      (outDB dbC5 (deleteFolder dbC5 1)).log.contains (.deleteFolderDocCall 3) = true ∧
      (outDB dbC5 (deleteFolder dbC5 1)).log.indexOf (.deletePrefixCall "7/folders/3/") <
        (outDB dbC5 (deleteFolder dbC5 1)).log.indexOf (.deleteFolderDocCall 3)) := by
  decide

/-- Every transitive descendant id belongs to some folder record. -/
theorem descendant_record {folders : List Folder} {F d : Nat}
    (h : Descendant folders F d) : ∃ f ∈ folders, f.id = d := by
  cases h with
  | base f hf _ => exact ⟨f, hf, rfl⟩
  | step p f _ hf _ => exact ⟨f, hf, rfl⟩

/-- A folder record with the looked-up id makes the ownership fetch succeed. -/
theorem resolveOwner_isSome_folder {db : DB} {d : Nat} (f : Folder)
    (hf : f ∈ db.folders) (hid : f.id = d) :
    ∃ owner, resolveOwner db .folder d = some owner := by
  unfold resolveOwner findFolder
  have hs : (db.folders.find? (fun g => g.id == d)).isSome = true :=
    List.find?_isSome.mpr ⟨f, hf, by simp [hid]⟩
  rcases Option.isSome_iff_exists.mp hs with ⟨g, hg⟩
  exact ⟨g.userId, by rw [hg]; rfl⟩

/-- A file record with the looked-up id makes the ownership fetch succeed. -/
theorem resolveOwner_isSome_file {db : DB} {d : Nat} (fl : FileDoc)
    (hfl : fl ∈ db.files) (hid : fl.id = d) :
    ∃ owner, resolveOwner db .file d = some owner := by
  unfold resolveOwner findFile
  have hs : (db.files.find? (fun g => g.id == d)).isSome = true :=
    List.find?_isSome.mpr ⟨fl, hfl, by simp [hid]⟩
  rcases Option.isSome_iff_exists.mp hs with ⟨g, hg⟩
  exact ⟨g.userId, by rw [hg]; rfl⟩

/-- After a folder-level grant, every propagation item has a non-global
record keyed to it with exactly the granted set. -/
theorem grant_perm_exists (db : DB) (u F : Nat) (lvls : List AccessLevel)
    {it : NestedItem} (hit : it ∈ getAllNestedFoldersAndFiles db.folders db.files F) :
    ∃ p ∈ (grantSpecificPermission db u F .folder lvls).perms,
      p.userId = u ∧ p.targetId = some it.id ∧ p.targetType = some it.type ∧
        p.accessLevel = lvls ∧ p.isGlobal = false := by
  unfold grantSpecificPermission
  dsimp only
  by_cases hc : db.perms.any (permKeyB u F .folder) = true
  · rw [if_pos hc]
    unfold propagatePermissions
    dsimp only
    exact foldl_upsert_exists u lvls _ _ it hit
  · rw [if_neg hc]
    unfold propagatePermissions
    dsimp only
    exact foldl_upsert_exists u lvls _ _ it hit

/-- C1: after `grantSpecificPermission(U, F, folder, [read])` on an existing
folder F, every folder transitively reachable from F along `parentFolderId`
links and every file sitting in F or such a descendant carries a non-global
permission record for U containing `read`, and `checkPermission` answers
allow for U reading it. -/
theorem claim_C1 (db : DB) (u F : Nat)
    (hroot : (findFolder db.folders F).isSome = true) :
    (∀ d, Descendant db.folders F d →
      (∃ p ∈ (grantSpecificPermission db u F .folder [.read]).perms,
        p.userId = u ∧ p.targetId = some d ∧ p.targetType = some .folder ∧
          p.isGlobal = false ∧ AccessLevel.read ∈ p.accessLevel) ∧
      checkPermission (grantSpecificPermission db u F .folder [.read]) .folder d u
        .read = .allow) ∧
    (∀ fl ∈ db.files,
      (fl.folderId = some F ∨ ∃ d, Descendant db.folders F d ∧ fl.folderId = some d) →
      (∃ p ∈ (grantSpecificPermission db u F .folder [.read]).perms,
        p.userId = u ∧ p.targetId = some fl.id ∧ p.targetType = some .file ∧
          p.isGlobal = false ∧ AccessLevel.read ∈ p.accessLevel) ∧
      checkPermission (grantSpecificPermission db u F .folder [.read]) .file fl.id u
        .read = .allow) := by
  constructor
  · intro d hd
    have hitem : NestedItem.mk d .folder ∈
        getAllNestedFoldersAndFiles db.folders db.files F :=
      folder_item_mem hroot hd
    rcases grant_perm_exists db u F [.read] hitem with ⟨p, hp, h1, h2, h3, h4, h5⟩
    have hread : AccessLevel.read ∈ p.accessLevel := by
      rw [h4]
      exact List.mem_singleton_self _
    refine ⟨⟨p, hp, h1, h2, h3, h5, hread⟩, ?_⟩
    rcases descendant_record hd with ⟨f, hf, hid⟩
    have hf2 : f ∈ (grantSpecificPermission db u F .folder [.read]).folders := by
      rw [grant_folders]
      exact hf
    rcases resolveOwner_isSome_folder f hf2 hid with ⟨owner, howner⟩
    exact checkPermission_allow_of_specific _ _ _ _ _ owner howner
      (hasSpecificB_iff.mpr ⟨p, hp, h1, h5, h3, h2, hread⟩)
  · intro fl hfl hin
    have hitem : NestedItem.mk fl.id .file ∈
        getAllNestedFoldersAndFiles db.folders db.files F :=
      file_item_mem hroot hfl hin
    rcases grant_perm_exists db u F [.read] hitem with ⟨p, hp, h1, h2, h3, h4, h5⟩
    have hread : AccessLevel.read ∈ p.accessLevel := by
      rw [h4]
      exact List.mem_singleton_self _
    refine ⟨⟨p, hp, h1, h2, h3, h5, hread⟩, ?_⟩
    have hfl2 : fl ∈ (grantSpecificPermission db u F .folder [.read]).files := by
      rw [grant_files]
      exact hfl
    rcases resolveOwner_isSome_file fl hfl2 rfl with ⟨owner, howner⟩
    exact checkPermission_allow_of_specific _ _ _ _ _ owner howner
      (hasSpecificB_iff.mpr ⟨p, hp, h1, h5, h3, h2, hread⟩)

/-- Witness for C1: granting read on folder 1 lets user 5 read descendant
folder 2 and file 10 inside it. -/
theorem claim_C1_witness :
    (findFolder dbC1w.folders 1).isSome = true ∧
      checkPermission (grantSpecificPermission dbC1w 5 1 .folder [.read]) .folder 2 5
        .read = .allow ∧
      checkPermission (grantSpecificPermission dbC1w 5 1 .folder [.read]) .file 10 5
        .read = .allow := by
  refine ⟨by decide, ?_, ?_⟩
  · exact ((claim_C1 dbC1w 5 1 (by decide)).1 2
      (Descendant.base ⟨2, "a", 98, 7, some 1, "7/folders/2/", [10], []⟩
        (by decide) rfl)).2
  · exact ((claim_C1 dbC1w 5 1 (by decide)).2
      ⟨10, "q1.pdf", 97, 7, some 2, 10000, none, "7/folders/2/files/10-q1.pdf"⟩
      (by decide)
      (Or.inr ⟨2, Descendant.base ⟨2, "a", 98, 7, some 1, "7/folders/2/", [10], []⟩
        (by decide) rfl, rfl⟩)).2

/-- C6: propagation writes only subtree keys — every item is a descendant
folder or a subtree file; each item's record gets exactly the granted set
(overwrite, non-global); and every pre-existing record for a different user
or a resource outside the subtree sits unchanged at its original position. -/
theorem claim_C6 (db : DB) (u F : Nat) (lvls : List AccessLevel) :
    (∀ it ∈ getAllNestedFoldersAndFiles db.folders db.files F,
      (it.type = .folder ∧ Descendant db.folders F it.id) ∨
        (it.type = .file ∧ FileInSubtree db.folders db.files F it.id)) ∧
    (∀ it ∈ getAllNestedFoldersAndFiles db.folders db.files F,
      ∃ p ∈ (propagatePermissions db u F lvls).perms,
        p.userId = u ∧ p.targetId = some it.id ∧ p.targetType = some it.type ∧
          p.accessLevel = lvls ∧ p.isGlobal = false) ∧
    (∀ (i : Nat) (x : Permission), db.perms[i]? = some x →
      x.userId ≠ u ∨ OutsideSubtree db.folders db.files F x →
      (propagatePermissions db u F lvls).perms[i]? = some x) := by
  refine ⟨?_, ?_, ?_⟩
  · intro it hit
    exact item_sound hit
  · intro it hit
    unfold propagatePermissions
    dsimp only
    exact foldl_upsert_exists u lvls _ db it hit
  · intro i x hx hcond
    unfold propagatePermissions
    dsimp only
    apply foldl_upsert_getElem? u lvls _ db i x hx
    intro it hit
    rw [Bool.eq_false_iff]
    intro ht
    have hk := permKeyB_iff.mp ht
    rcases hcond with hu | hout
    · exact hu hk.1
    · rcases item_sound hit with ⟨hty, hdesc⟩ | ⟨hty, hfs⟩
      · unfold OutsideSubtree at hout
        rw [hk.2.1, hk.2.2, hty] at hout
        exact hout hdesc
      · unfold OutsideSubtree at hout
        rw [hk.2.1, hk.2.2, hty] at hout
        exact hout hfs

/-- Witness for C6: propagating read on folder 1 rewrites nothing for
another user's in-subtree record nor for the grantee's record on the
unrelated folder 3, while descendant folder 2 gains exactly the granted
set. -/
theorem claim_C6_witness :
    (dbC6w.perms[0]? = some ⟨60, 8, some 2, some .folder, [.write, .delete], false⟩ ∧
      dbC6w.perms[1]? = some ⟨61, 5, some 3, some .folder, [.owner], false⟩ ∧
      NestedItem.mk 2 .folder ∈ getAllNestedFoldersAndFiles dbC6w.folders dbC6w.files 1) ∧
      (propagatePermissions dbC6w 5 1 [.read]).perms[0]? =
        some ⟨60, 8, some 2, some .folder, [.write, .delete], false⟩ ∧
      (propagatePermissions dbC6w 5 1 [.read]).perms[1]? =
        some ⟨61, 5, some 3, some .folder, [.owner], false⟩ ∧
      ∃ p ∈ (propagatePermissions dbC6w 5 1 [.read]).perms,
        p.userId = 5 ∧ p.targetId = some 2 ∧ p.targetType = some .folder ∧
          p.accessLevel = [.read] ∧ p.isGlobal = false := by
  refine ⟨⟨by decide, by decide, by decide⟩, ?_, ?_, ?_⟩
  · exact (claim_C6 dbC6w 5 1 [.read]).2.2 0 _ (by decide) (Or.inl (by decide))
  · refine (claim_C6 dbC6w 5 1 [.read]).2.2 1 _ (by decide) (Or.inr ?_)
    intro hd
    exact absurd (descendant_mem_nested (by decide) hd) (by decide)
  · exact (claim_C6 dbC6w 5 1 [.read]).2.1 ⟨2, .folder⟩ (by decide)

/-- `updateFirst` only rewrites elements of the list. -/
theorem mem_updateFirst_cases {α : Type} (p : α → Bool) (g : α → α) :
    ∀ (l : List α) (y : α), y ∈ updateFirst p g l → y ∈ l ∨ ∃ x ∈ l, y = g x := by
  intro l
  induction l with
  | nil => intro y h; simp [updateFirst] at h
  | cons z zs ih =>
    intro y hy
    by_cases hz : p z = true
    · simp only [updateFirst, hz, if_true, List.mem_cons] at hy
      rcases hy with h | h
      · exact Or.inr ⟨z, List.mem_cons_self z zs, h⟩
      · exact Or.inl (List.mem_cons_of_mem _ h)
    · simp only [updateFirst, hz, if_false, Bool.false_eq_true, List.mem_cons] at hy
      rcases hy with h | h
      · exact Or.inl (h ▸ List.mem_cons_self z zs)
      · rcases ih y h with h2 | ⟨x, hx, hgx⟩
        · exact Or.inl (List.mem_cons_of_mem _ h2)
        · exact Or.inr ⟨x, List.mem_cons_of_mem _ hx, hgx⟩

/-- An id-preserving in-place update keeps the permission-id invariant. -/
theorem permIdInv_update (db : DB) (q : Permission → Bool) (g : Permission → Permission)
    (hgid : ∀ x, (g x).id = x.id) (h : PermIdInv db) :
    PermIdInv { db with perms := updateFirst q g db.perms } := by
  rcases h with ⟨hnd, hb⟩
  constructor
  · show ((updateFirst q g db.perms).map (fun p => p.id)).Nodup
    rw [map_updateFirst q g (fun p => p.id) hgid db.perms]
    exact hnd
  · intro p hp
    rcases mem_updateFirst_cases q g db.perms p hp with h1 | ⟨x, hx, rfl⟩
    · exact hb p h1
    · show (g x).id < db.nextPermId
      rw [hgid x]
      exact hb x hx

/-- Inserting a record under the fresh id keeps the permission-id invariant. -/
theorem permIdInv_insert (db : DB) (u tid : Nat) (tty : TargetType)
    (lvls : List AccessLevel) (h : PermIdInv db) :
    PermIdInv { db with
      perms := db.perms ++ [⟨db.nextPermId, u, some tid, some tty, lvls, false⟩],
      nextPermId := db.nextPermId + 1 } := by
  rcases h with ⟨hnd, hb⟩
  constructor
  · dsimp only
    rw [List.map_append]
    refine List.Nodup.append hnd (List.nodup_singleton _) ?_
    intro a ha ha2
    rcases List.mem_map.mp ha with ⟨q, hq, rfl⟩
    have h1 := hb q hq
    have h2 : q.id = db.nextPermId := by simpa using ha2
    omega
  · intro p hp
    rcases List.mem_append.mp hp with h1 | h1
    · exact Nat.lt_succ_of_lt (hb p h1)
    · have h2 : p = ⟨db.nextPermId, u, some tid, some tty, lvls, false⟩ := by
        simpa using h1
      rw [h2]
      exact Nat.lt_succ_self _

/-- One propagation upsert keeps the permission-id invariant. -/
theorem permIdInv_applyPropUpsert (db : DB) (u tid : Nat) (tty : TargetType)
    (lvls : List AccessLevel) (h : PermIdInv db) :
    PermIdInv (applyPropUpsert db u tid tty lvls) := by
  unfold applyPropUpsert
  by_cases hc : db.perms.any (permKeyB u tid tty) = true
  · rw [if_pos hc]
    exact permIdInv_update db (permKeyB u tid tty)
      (fun p => { p with accessLevel := lvls, isGlobal := false }) (fun x => rfl) h
  · rw [if_neg hc]
    exact permIdInv_insert db u tid tty lvls h

/-- The propagation fold keeps the permission-id invariant. -/
theorem permIdInv_foldl (u : Nat) (lvls : List AccessLevel) :
    ∀ (items : List NestedItem) (acc : DB), PermIdInv acc →
      PermIdInv (items.foldl (fun a it => applyPropUpsert a u it.id it.type lvls) acc) := by
  intro items
  induction items with
  | nil => intro acc h; exact h
  | cons i rest ih =>
    intro acc h
    rw [List.foldl_cons]
    exact ih _ (permIdInv_applyPropUpsert acc u i.id i.type lvls h)

/-- `grantSpecificPermission` keeps the permission-id invariant. -/
theorem permIdInv_grant (db : DB) (u tid : Nat) (tty : TargetType)
    (lvls : List AccessLevel) (h : PermIdInv db) :
    PermIdInv (grantSpecificPermission db u tid tty lvls) := by
  unfold grantSpecificPermission
  have hdb1 : PermIdInv (if db.perms.any (permKeyB u tid tty) = true then
      { db with perms := (updateFirst (permKeyB u tid tty)
          (fun p => { p with accessLevel := lvls }) db.perms) }
    else
      { db with
          perms := db.perms ++ [⟨db.nextPermId, u, some tid, some tty, lvls, false⟩],
          nextPermId := db.nextPermId + 1 }) := by
    by_cases hc : db.perms.any (permKeyB u tid tty) = true
    · rw [if_pos hc]
      exact permIdInv_update db (permKeyB u tid tty)
        (fun p => { p with accessLevel := lvls }) (fun x => rfl) h
    · rw [if_neg hc]
      exact permIdInv_insert db u tid tty lvls h
  cases tty with
  | folder =>
    dsimp only
    unfold propagatePermissions
    dsimp only
    exact permIdInv_foldl u lvls _ _ hdb1
  | file =>
    dsimp only
    exact hdb1

/-- C9: revoking by id deletes exactly the one record holding that id and
touches no other record; and revoking the direct folder-level grant after
propagation leaves every propagated descendant record in place with its
access-level set unchanged. -/
theorem claim_C9 (db : DB) (u F : Nat) (lvls : List AccessLevel) (g : Permission)
    (hinv : PermIdInv db)
    (hg : g ∈ (grantSpecificPermission db u F .folder lvls).perms)
    (hgu : g.userId = u) (hgt : g.targetId = some F)
    (hgty : g.targetType = some .folder) :
    (∀ (db0 : DB) (pid : Nat),
      (∀ p ∈ db0.perms, p.id ≠ pid → p ∈ (revokePermission db0 pid).perms) ∧
      (∀ p ∈ (revokePermission db0 pid).perms, p ∈ db0.perms) ∧
      ((∃ q ∈ db0.perms, q.id = pid) →
        (revokePermission db0 pid).perms.length + 1 = db0.perms.length) ∧
      ((db0.perms.map (fun p => p.id)).Nodup →
        ∀ p ∈ (revokePermission db0 pid).perms, p.id ≠ pid)) ∧
    (∀ it ∈ getAllNestedFoldersAndFiles db.folders db.files F,
      it.id ≠ F ∨ it.type ≠ .folder →
      ∃ p ∈ (revokePermission (grantSpecificPermission db u F .folder lvls) g.id).perms,
        p.userId = u ∧ p.targetId = some it.id ∧ p.targetType = some it.type ∧
          p.accessLevel = lvls ∧ p.isGlobal = false) := by
  have hinv1 : PermIdInv (grantSpecificPermission db u F .folder lvls) :=
    permIdInv_grant db u F .folder lvls hinv
  refine ⟨?_, ?_⟩
  · intro db0 pid
    refine ⟨?_, ?_, ?_, ?_⟩
    · intro p hp hne
      exact mem_eraseFirst_of_ne _ db0.perms p hp (beq_eq_false_iff_ne.mpr hne)
    · intro p hp
      exact mem_of_mem_eraseFirst _ db0.perms p hp
    · rintro ⟨q, hq, hqid⟩
      exact length_eraseFirst_add_one _ db0.perms
        (List.any_eq_true.mpr ⟨q, hq, by simp [hqid]⟩)
    · intro hnd p hp
      unfold revokePermission at hp
      dsimp only at hp
      exact eraseFirst_key_ne (fun p => p.id) pid db0.perms hnd p hp
  · intro it hit hne
    rcases grant_perm_exists db u F lvls hit with ⟨p, hp, h1, h2, h3, h4, h5⟩
    have hpg : p ≠ g := by
      intro he
      rcases hne with hni | hnt
      · rw [he, hgt] at h2
        exact hni (Option.some_inj.mp h2.symm)
      · rw [he, hgty] at h3
        exact hnt (Option.some_inj.mp h3.symm)
    have hidne : p.id ≠ g.id := by
      intro hid
      exact hpg (List.inj_on_of_nodup_map hinv1.1 hp hg hid)
    refine ⟨p, ?_, h1, h2, h3, h4, h5⟩
    exact mem_eraseFirst_of_ne _ _ p hp (beq_eq_false_iff_ne.mpr hidne)

/-- Witness for C9: after granting read on folder 1 (propagating to folder
2 and file 10) and revoking the direct grant record 200, the propagated
record for folder 2 is still there with its set unchanged. -/
theorem claim_C9_witness :
    (PermIdInv dbC9w ∧
      (⟨200, 5, some 1, some .folder, [.read], false⟩ : Permission) ∈
        (grantSpecificPermission dbC9w 5 1 .folder [.read]).perms) ∧
      ∃ p ∈ (revokePermission (grantSpecificPermission dbC9w 5 1 .folder [.read])
          200).perms,
        p.userId = 5 ∧ p.targetId = some 2 ∧ p.targetType = some .folder ∧
          p.accessLevel = [.read] ∧ p.isGlobal = false :=
  ⟨⟨by decide, by decide⟩,
    (claim_C9 dbC9w 5 1 [.read] ⟨200, 5, some 1, some .folder, [.read], false⟩
      (by decide) (by decide) rfl rfl rfl).2 ⟨2, .folder⟩ (by decide)
      (Or.inl (by decide))⟩

end FileDrive
